import Mathlib

/-!
Verification of `django-parler` (HiddenData fork): a shallow embedding of
`parler/singleformadmin.py`, `example/article/views.py` and the `_parler_meta`
registry behaviour exercised by `parler/tests/test_model_construction.py`.

Python dictionaries are embedded as association lists (`alistLookup`,
`alistInsert`, `alistSetdefault` mirror `d[k]`, `d[k] = v`, `d.setdefault`),
exceptions as `Except PyErr`, and the mutable form-construction state
(`attrs`, `Meta.fields`) as explicit state passing.
-/

/-- The Python exceptions raised (directly or from the framework) by the
embedded code. -/
inductive PyErr where
  | typeError
  | valueError
  | keyError
  | indexError
  | fieldDoesNotExist
  | translationDoesNotExist
  | runtimeError
  | attributeError
deriving DecidableEq

/-- Lookup in a Python dict embedded as an association list (first match;
`alistInsert` keeps keys unique, as a dict does). -/
def alistLookup {α β : Type} [DecidableEq α] (l : List (α × β)) (k : α) : Option β :=
  match l with
  | [] => none
  | kv :: rest => if kv.1 = k then some kv.2 else alistLookup rest k

/-- `d[k] = v` on a Python dict: replace the value in place if the key exists,
append otherwise (dicts keep the key's original position on overwrite). -/
def alistInsert {α β : Type} [DecidableEq α] (l : List (α × β)) (k : α) (v : β) :
    List (α × β) :=
  match l with
  | [] => [(k, v)]
  | kv :: rest => if kv.1 = k then (k, v) :: rest else kv :: alistInsert rest k v

/-- `d.setdefault(k, v)`: leave the dict alone if the key is present, insert
the default at the end otherwise. -/
def alistSetdefault {α β : Type} [DecidableEq α] (l : List (α × β)) (k : α) (v : β) :
    List (α × β) :=
  match alistLookup l k with
  | some _ => l
  | none => l ++ [(k, v)]

/-- `dict(pairs)[k]`: building a dict from a pair list lets later pairs
override earlier ones, so lookup returns the last matching pair. -/
def pyDictLookup (pairs : List (String × String)) (k : String) : Option String :=
  match pairs with
  | [] => none
  | kv :: rest =>
    match pyDictLookup rest k with
    | some v => some v
    | none => if kv.1 = k then some kv.2 else none

/-- `d.update(other)`: insert every pair of `other` into `d` in order. -/
def dictUpdate {α β : Type} [DecidableEq α] (d other : List (α × β)) : List (α × β) :=
  other.foldl (fun acc kv => alistInsert acc kv.1 kv.2) d

/-- The Django settings the embedded code reads: the `'code'` entries of
`PARLER_LANGUAGES[SITE_ID]`, `PARLER_DEFAULT_LANGUAGE_CODE` and
`PARLER_BACKEND`. -/
structure ParlerSettings where
  languages : List String
  default_language_code : String
  backend : String
deriving DecidableEq

/-- `_get_available_language_codes()`: the `'code'` of each entry of
`PARLER_LANGUAGES[SITE_ID]`. -/
def get_available_language_codes (s : ParlerSettings) : List String :=
  s.languages

/-- `_get_default_language()`: `PARLER_DEFAULT_LANGUAGE_CODE`. -/
def get_default_language (s : ParlerSettings) : String :=
  s.default_language_code

/-- `_get_translated_fields_names(name)`: one `(code, '{name}_{code}')` pair
per available language. -/
def get_translated_fields_names (s : ParlerSettings) (name : String) :
    List (String × String) :=
  (get_available_language_codes s).map fun code => (code, name ++ "_" ++ code)

/-- `_replace_field(fields, name, replacement)`: splice `replacement` in place
of the first occurrence of `name`; `list.index` raises `ValueError` when
`name` is absent. -/
def replace_field (fields : List String) (name : String)
    (replacement : List String) : Except PyErr (List String) :=
  match fields.findIdx? (fun f => decide (f = name)) with
  | none => .error .valueError
  | some i => .ok (fields.take i ++ replacement ++ fields.drop (i + 1))

theorem alistLookup_insert_self {α β : Type} [DecidableEq α]
    (l : List (α × β)) (k : α) (v : β) :
    alistLookup (alistInsert l k v) k = some v := by
  induction l with
  | nil => simp [alistInsert, alistLookup]
  | cons kv rest ih =>
    by_cases h : kv.1 = k
    · simp [alistInsert, h, alistLookup]
    · simp [alistInsert, h, alistLookup, ih]

theorem alistLookup_insert_ne {α β : Type} [DecidableEq α]
    (l : List (α × β)) (k k' : α) (v : β) (hne : k' ≠ k) :
    alistLookup (alistInsert l k v) k' = alistLookup l k' := by
  induction l with
  | nil =>
    simp only [alistInsert, alistLookup]
    rw [if_neg (Ne.symm hne)]
  | cons kv rest ih =>
    by_cases h : kv.1 = k
    · simp only [alistInsert, if_pos h, alistLookup]
      rw [if_neg (Ne.symm hne), if_neg (fun hk => hne (hk.symm.trans h))]
    · simp only [alistInsert, if_neg h, alistLookup]
      by_cases h' : kv.1 = k'
      · rw [if_pos h', if_pos h']
      · rw [if_neg h', if_neg h', ih]

theorem alistLookup_append {α β : Type} [DecidableEq α]
    (l₁ l₂ : List (α × β)) (k : α) :
    alistLookup (l₁ ++ l₂) k =
      match alistLookup l₁ k with
      | some v => some v
      | none => alistLookup l₂ k := by
  induction l₁ with
  | nil => simp [alistLookup]
  | cons kv rest ih =>
    by_cases h : kv.1 = k
    · simp [alistLookup, h]
    · simp [alistLookup, h, ih]

theorem alistLookup_setdefault_ne {α β : Type} [DecidableEq α]
    (l : List (α × β)) (k k' : α) (v : β) (hne : k' ≠ k) :
    alistLookup (alistSetdefault l k v) k' = alistLookup l k' := by
  unfold alistSetdefault
  cases h : alistLookup l k with
  | some w => rfl
  | none =>
    rw [alistLookup_append]
    cases h' : alistLookup l k' with
    | some w => rfl
    | none => simp [alistLookup, Ne.symm hne]

theorem alistLookup_setdefault_self {α β : Type} [DecidableEq α]
    (l : List (α × β)) (k : α) (v : β) :
    alistLookup (alistSetdefault l k v) k = some ((alistLookup l k).getD v) := by
  unfold alistSetdefault
  cases h : alistLookup l k with
  | some w => simp [h]
  | none =>
    rw [alistLookup_append, h]
    simp [alistLookup]

theorem get_translated_fields_names_eq (s : ParlerSettings) (name : String) :
    get_translated_fields_names s name =
      s.languages.map (fun c => (c, name ++ "_" ++ c)) := rfl

theorem pyDictLookup_pairs_not_mem (codes : List String) (name code : String)
    (h : code ∉ codes) :
    pyDictLookup (codes.map (fun c => (c, name ++ "_" ++ c))) code = none := by
  induction codes with
  | nil => rfl
  | cons c rest ih =>
    simp only [List.map_cons, pyDictLookup]
    rw [ih (fun hm => h (List.mem_cons_of_mem _ hm))]
    exact if_neg (fun hc => h (List.mem_cons.mpr (Or.inl hc.symm)))

theorem pyDictLookup_pairs_of_mem (codes : List String) (name code : String)
    (h : code ∈ codes) :
    pyDictLookup (codes.map (fun c => (c, name ++ "_" ++ c))) code =
      some (name ++ "_" ++ code) := by
  induction codes with
  | nil => cases h
  | cons c rest ih =>
    by_cases hc : code ∈ rest
    · simp only [List.map_cons, pyDictLookup]
      rw [ih hc]
    · have hcc : c = code := by
        rcases List.mem_cons.mp h with h1 | h2
        · exact h1.symm
        · exact absurd h2 hc
      subst hcc
      simp only [List.map_cons, pyDictLookup]
      rw [pyDictLookup_pairs_not_mem rest name c hc]
      simp

/-- A field of a generated translations model: its name, whether it is
`editable`, the label its default form field gets, and whether it is `blank`
(a non-blank model field gives a required form field). -/
structure ModelField where
  name : String
  editable : Bool
  label : String
  blank : Bool
deriving DecidableEq

/-- A translations model: the ordered list of its translated fields. -/
structure TranslationsModel where
  translatedFields : List ModelField
deriving DecidableEq

/-- `translations_model.get_translated_fields()`: the field names in order. -/
def model_get_translated_fields (tm : TranslationsModel) : List String :=
  tm.translatedFields.map (·.name)

/-- `translations_model._meta.get_field(name)`: the first field with that
name, if any. -/
def model_get_field (tm : TranslationsModel) (name : String) : Option ModelField :=
  tm.translatedFields.find? (fun f => decide (f.name = name))

/-- A constructed form field, recording everything the embedded code sets on
it: source model field, `required`, `label`, the `language_code` attribute,
the keyword arguments it was built with, and whether a `formfield_callback`
was in effect. -/
structure FormField where
  sourceField : String
  required : Bool
  label : String
  languageCode : Option String
  kwargs : List (String × String)
  usedCallback : Bool
deriving DecidableEq

/-- A value in the class attribute dictionary `attrs`: a `TranslatedField`
placeholder (with its kwargs), a built form field, or anything else (methods,
the callback, ...). -/
inductive FormAttr where
  | translatedFieldPlaceholder (kwargs : List (String × String))
  | formFieldAttr (ff : FormField)
  | otherAttr
deriving DecidableEq

/-- A base class of the form being constructed, reduced to its attribute
dictionary (the part `_get_mro_attribute` walks). -/
structure FormBaseClass where
  attrs : List (String × FormAttr)
deriving DecidableEq

/-- Modelled from the spec: `_get_mro_attribute(bases, name)` is imported from
`parler.forms`, which is not among the sources; per the spec the metaclass
fetches attributes "from bases list" along the method resolution order, so it
returns the first base attribute with the given name. -/
def get_mro_attribute (bases : List FormBaseClass) (name : String) : Option FormAttr :=
  match bases with
  | [] => none
  | b :: rest =>
    match alistLookup b.attrs name with
    | some v => some v
    | none => get_mro_attribute rest name

/-- Modelled from the spec: `_get_model_form_field(translations_model, name,
formfield_callback, **kwargs)` is imported from `parler.forms`, which is not
among the sources; per the spec it follows Django's `formfield_callback`
contract and builds the default form field for the named field of the
translations model, so we record the model field's label, a `required` flag
from its `blank` option, the kwargs and whether a callback was used. -/
def get_model_form_field (tm : TranslationsModel) (name : String)
    (usedCallback : Bool) (kwargs : List (String × String)) : Option FormField :=
  (model_get_field tm name).map fun mf =>
    { sourceField := name
      required := !mf.blank
      label := mf.label
      languageCode := none
      kwargs := kwargs
      usedCallback := usedCallback }

/-- The value of a `Meta.fields` attribute: the `'__all__'` marker or an
explicit name list. -/
inductive FieldsSpec where
  | allFields
  | fieldList (fs : List String)
deriving DecidableEq

/-- The state `_handle_translation_model` mutates: the class attribute dict
`attrs` and the `fields` attribute of `form_new_meta` (absent until first
assigned when the class supplies no `Meta.fields`). -/
structure FormBuildState where
  attrs : List (String × FormAttr)
  newMetaFields : Option FieldsSpec
deriving DecidableEq

/-- Lines 106-111 of `singleformadmin.py`: build the form field for one
language, then force `required` for the default language, append
`' ({code})'` to the label and set `language_code`. -/
def mk_language_formfield (tm : TranslationsModel) (name : String)
    (usedCallback : Bool) (kwargs : List (String × String))
    (defaultLang code : String) : Option FormField :=
  (get_model_form_field tm name usedCallback kwargs).map fun ff =>
    { ff with
        required := decide (code = defaultLang)
        label := ff.label ++ " (" ++ code ++ ")"
        languageCode := some code }

/-- The `for code, t_name in translated_fields_names` loop (lines 105-112):
store one generated form field per language in `attrs`.
`_get_model_form_field` raises when the field cannot be resolved. -/
def inject_language_fields (tm : TranslationsModel) (name : String)
    (usedCallback : Bool) (kwargs : List (String × String)) (defaultLang : String)
    (pairs : List (String × String)) (attrs : List (String × FormAttr)) :
    Except PyErr (List (String × FormAttr)) :=
  match pairs with
  | [] => .ok attrs
  | (code, tName) :: rest =>
    match mk_language_formfield tm name usedCallback kwargs defaultLang code with
    | none => .error .fieldDoesNotExist
    | some ff =>
      inject_language_fields tm name usedCallback kwargs defaultLang rest
        (alistInsert attrs tName (.formFieldAttr ff))

/-- The body of the `for f_name in translations_model.get_translated_fields()`
loop of `_handle_translation_model` for one field name.

`placeholders` is the `translated_fields` list built by the metaclass (the
names of `TranslatedField` attributes of this class level); the first branch
evaluates `translated_fields[f_name].kwargs`, which indexes that list with a
string and therefore raises `TypeError`. `fields` is the local captured
before the loop (`None` when `Meta.fields` was `'__all__'`), and
`fields or [f_name]`, the `zip(*...)[1]` `IndexError` on an empty language
list, and the `ValueError` of `list.index` are kept. -/
def process_translated_field (s : ParlerSettings) (bases : List FormBaseClass)
    (placeholders : List String) (formBaseFields : List String)
    (fields : Option (List String)) (exclude : List String)
    (widgets : List (String × String)) (usedCallback : Bool)
    (tm : TranslationsModel) (fName : String) (st : FormBuildState) :
    Except PyErr FormBuildState :=
  if fName ∈ placeholders then
    .error .typeError
  else if fName ∉ formBaseFields
      ∧ (fields = none ∨ fName ∈ fields.getD [])
      ∧ fName ∉ exclude
      ∧ alistLookup st.attrs fName = none then
    let kwargs : List (String × String) :=
      match alistLookup widgets fName with
      | some w => [("widget", w)]
      | none => []
    let kwargs : List (String × String) :=
      match get_mro_attribute bases fName with
      | some (.translatedFieldPlaceholder pk) => dictUpdate kwargs pk
      | _ => kwargs
    match model_get_field tm fName with
    | none => .error .fieldDoesNotExist
    | some mf =>
      if mf.editable = false then
        .ok st
      else
        let tfnames := get_translated_fields_names s fName
        match fields with
        | none =>
          (inject_language_fields tm fName usedCallback kwargs
              (get_default_language s) tfnames st.attrs).map
            fun a => { st with attrs := a }
        | some fs =>
          if tfnames = [] then .error .indexError
          else
            match replace_field (if fs = [] then [fName] else fs) fName
                (tfnames.map (·.2)) with
            | .error e => .error e
            | .ok newFields =>
              (inject_language_fields tm fName usedCallback kwargs
                  (get_default_language s) tfnames st.attrs).map
                fun a => { attrs := a, newMetaFields := some (.fieldList newFields) }
  else
    .ok st

/-- The loop of `_handle_translation_model` over the translated field names. -/
def process_translated_field_list (s : ParlerSettings) (bases : List FormBaseClass)
    (placeholders : List String) (formBaseFields : List String)
    (fields : Option (List String)) (exclude : List String)
    (widgets : List (String × String)) (usedCallback : Bool)
    (tm : TranslationsModel) (names : List String) (st : FormBuildState) :
    Except PyErr FormBuildState :=
  match names with
  | [] => .ok st
  | n :: rest =>
    match process_translated_field s bases placeholders formBaseFields fields
        exclude widgets usedCallback tm n st with
    | .error e => .error e
    | .ok st' =>
      process_translated_field_list s bases placeholders formBaseFields fields
        exclude widgets usedCallback tm rest st'

/-- `_handle_translation_model`: resolve `fields` from `form_new_meta` (falling
back to the base `Meta` when the class never assigned one), turn `'__all__'`
into `None`, read `formfield_callback` from `attrs`, then run the field loop.
`exclude` and `widgets` are passed already resolved (`getattr(...) or ()`). -/
def handle_translation_model (s : ParlerSettings) (bases : List FormBaseClass)
    (formMetaFields : FieldsSpec) (exclude : List String)
    (widgets : List (String × String)) (formBaseFields : List String)
    (placeholders : List String) (tm : TranslationsModel)
    (st : FormBuildState) : Except PyErr FormBuildState :=
  let fieldsAttr := st.newMetaFields.getD formMetaFields
  let fields : Option (List String) :=
    match fieldsAttr with
    | .allFields => none
    | .fieldList fs => some fs
  let usedCallback := (alistLookup st.attrs "formfield_callback").isSome
  process_translated_field_list s bases placeholders formBaseFields fields
    exclude widgets usedCallback tm (model_get_translated_fields tm) st

/-- The `for translations_model in form_model._parler_meta.get_all_models()`
loop of `TranslatableModelFormMetaclass.__new__`. -/
def run_handle_models (s : ParlerSettings) (bases : List FormBaseClass)
    (formMetaFields : FieldsSpec) (exclude : List String)
    (widgets : List (String × String)) (formBaseFields : List String)
    (placeholders : List String) (models : List TranslationsModel)
    (st : FormBuildState) : Except PyErr FormBuildState :=
  match models with
  | [] => .ok st
  | tm :: rest =>
    match handle_translation_model s bases formMetaFields exclude widgets
        formBaseFields placeholders tm st with
    | .error e => .error e
    | .ok st' =>
      run_handle_models s bases formMetaFields exclude widgets formBaseFields
        placeholders rest st'

/-- `TranslatableModelFormMetaclass.__new__` on the main path (a `Meta` with a
model is available): detect the `TranslatedField` placeholders declared at
this class level, then update `attrs` and `Meta.fields` for every translations
model of the form's model. `formMetaFields`, `exclude`, `widgets` and
`formBaseFields` are the options already resolved from the bases' `_meta` and
`base_fields`; `newMetaFields0` is the `fields` attribute of the class's own
`Meta`, when it has one. -/
def translatable_model_form_metaclass_new (s : ParlerSettings)
    (bases : List FormBaseClass) (formMetaFields : FieldsSpec)
    (exclude : List String) (widgets : List (String × String))
    (formBaseFields : List String) (parlerModels : List TranslationsModel)
    (attrs0 : List (String × FormAttr)) (newMetaFields0 : Option FieldsSpec) :
    Except PyErr FormBuildState :=
  let placeholders :=
    (attrs0.filter fun p =>
      match p.2 with
      | .translatedFieldPlaceholder _ => true
      | _ => false).map (·.1)
  run_handle_models s bases formMetaFields exclude widgets formBaseFields
    placeholders parlerModels { attrs := attrs0, newMetaFields := newMetaFields0 }

/-- Modelled from the spec: one entry of the `_parler_meta` registry
(`parler/models.py` is not among the sources; the spec describes a "metadata
registry (`_parler_meta`) recording, per inheritance level, which translation
model/JSON field backs which set of translatable fields"). An entry carries
the accessor name of its translation source, the translation model's name and
the translatable field names of that level. -/
structure ParlerMeta where
  translations_name : String
  model_name : String
  fields : List String
deriving DecidableEq

/-- Modelled from the spec: a model's `_parler_meta` chains one `ParlerMeta`
per inheritance level, base levels first ("how multiple inheritance levels
chain to a root"). -/
def inherit_parler_meta (base own : List ParlerMeta) : List ParlerMeta :=
  base ++ own

/-- Modelled from the spec: `_parler_meta.root` "always resolves to the
top-most inherited translation source", i.e. the first chained entry. -/
def parler_meta_root (r : List ParlerMeta) : Option ParlerMeta :=
  r.head?

/-- Modelled from the spec: `_parler_meta.root_translations_name`, the
translations name of the root entry. -/
def parler_meta_root_translations_name (r : List ParlerMeta) : Option String :=
  (parler_meta_root r).map (·.translations_name)

/-- A translatable model instance as the form code sees it: the current
language, the `_parler_meta` chain, the per-language translated attribute
values, and the stored translation rows keyed by
`(translations_name, language_code)` (each row an association list from field
name to value). -/
structure TransInstance where
  currentLanguage : String
  parlerMetas : List ParlerMeta
  values : List ((String × String) × String)
  translations : List ((String × String) × List (String × String))
deriving DecidableEq

/-- `instance.set_current_language(code)`. -/
def set_current_language (inst : TransInstance) (code : String) : TransInstance :=
  { inst with currentLanguage := code }

/-- Modelled from the spec: assigning a translated attribute
(`setattr(self.instance, field, value)`) stores the value for the instance's
current language — the translated-descriptor machinery lives in
`parler/models.py`, which is not among the sources. -/
def set_translated_attr (inst : TransInstance) (field v : String) : TransInstance :=
  { inst with values := alistInsert inst.values (inst.currentLanguage, field) v }

/-- Modelled from the spec: `instance._get_translated_model(meta, language_code)`
(from `parler/models.py`, not among the sources) returns the stored translation
row for that level and language, and "a missing translation raises a
framework-specific does-not-exist condition". -/
def get_translated_model (inst : TransInstance) (meta : ParlerMeta)
    (code : String) : Except PyErr (List (String × String)) :=
  match alistLookup inst.translations (meta.translations_name, code) with
  | some t => .ok t
  | none => .error .translationDoesNotExist

/-- The generator `_get_all_translated_fields_names`: every translated field
name of every `_parler_meta` level, in order. -/
def all_translated_fields_names_of (metas : List ParlerMeta) : List String :=
  match metas with
  | [] => []
  | m :: rest => m.fields ++ all_translated_fields_names_of rest

/-- `self._get_all_translated_fields_names()` on an instance. -/
def all_translated_fields_names (inst : TransInstance) : List String :=
  all_translated_fields_names_of inst.parlerMetas

/-- The inner loop of `save_translated_fields` for one language `code` (the
current language was just set to `code`): for every translated field, look up
`'{field}_{code}'` in the names dict, read it from `cleaned_data` — a missing
key is skipped — and assign the translated attribute. -/
def save_fields_for_code (s : ParlerSettings) (cleanedData : List (String × String))
    (code : String) (fields : List String) (inst : TransInstance) :
    Except PyErr TransInstance :=
  match fields with
  | [] => .ok inst
  | field :: rest =>
    match pyDictLookup (get_translated_fields_names s field) code with
    | none => .error .keyError
    | some codeField =>
      match alistLookup cleanedData codeField with
      | none => save_fields_for_code s cleanedData code rest inst
      | some v =>
        save_fields_for_code s cleanedData code rest (set_translated_attr inst field v)

/-- The outer loop of `save_translated_fields`: for every available language,
switch the instance to it and store the cleaned per-language values. -/
def save_languages_loop (s : ParlerSettings) (cleanedData : List (String × String))
    (codes : List String) (inst : TransInstance) : Except PyErr TransInstance :=
  match codes with
  | [] => .ok inst
  | code :: rest =>
    let inst1 := set_current_language inst code
    match save_fields_for_code s cleanedData code
        (all_translated_fields_names inst1) inst1 with
    | .error e => .error e
    | .ok inst2 => save_languages_loop s cleanedData rest inst2

/-- `TranslatableModelFormMixin.save_translated_fields`; `activeLang` is the
`get_language()` value the instance is switched back to at the end. -/
def save_translated_fields (s : ParlerSettings)
    (cleanedData : List (String × String)) (activeLang : String)
    (inst : TransInstance) : Except PyErr TransInstance :=
  match save_languages_loop s cleanedData (get_available_language_codes s) inst with
  | .error e => .error e
  | .ok i => .ok (set_current_language i activeLang)

/-- `getattr(translation, field)` on a translation row: a missing attribute
raises `AttributeError`. -/
def py_getattr (t : List (String × String)) (field : String) : Except PyErr String :=
  match alistLookup t field with
  | some v => .ok v
  | none => .error .attributeError

/-- The innermost loop of `TranslatableModelFormMixin.__init__` for one
translated field: for each language, fetch the translation —
`TranslationDoesNotExist` is caught and the language skipped — and
`setdefault` the per-language initial value. -/
def load_initial_for_field_codes (inst : TransInstance) (meta : ParlerMeta)
    (field : String) (pairs : List (String × String))
    (initial : List (String × String)) : Except PyErr (List (String × String)) :=
  match pairs with
  | [] => .ok initial
  | (code, codeField) :: rest =>
    match get_translated_model inst meta code with
    | .error .translationDoesNotExist =>
      load_initial_for_field_codes inst meta field rest initial
    | .error e => .error e
    | .ok t =>
      match py_getattr t field with
      | .error e => .error e
      | .ok v =>
        load_initial_for_field_codes inst meta field rest
          (alistSetdefault initial codeField v)

/-- The loop of `__init__` over one meta's translated fields. -/
def load_initial_fields_loop (s : ParlerSettings) (inst : TransInstance)
    (meta : ParlerMeta) (fields : List String)
    (initial : List (String × String)) : Except PyErr (List (String × String)) :=
  match fields with
  | [] => .ok initial
  | field :: rest =>
    match load_initial_for_field_codes inst meta field
        (get_translated_fields_names s field) initial with
    | .error e => .error e
    | .ok initial' => load_initial_fields_loop s inst meta rest initial'

/-- The loop of `__init__` over the instance's `_parler_meta` levels. -/
def load_initial_metas_loop (s : ParlerSettings) (inst : TransInstance)
    (metas : List ParlerMeta) (initial : List (String × String)) :
    Except PyErr (List (String × String)) :=
  match metas with
  | [] => .ok initial
  | meta :: rest =>
    match load_initial_fields_loop s inst meta meta.fields initial with
    | .error e => .error e
    | .ok initial' => load_initial_metas_loop s inst rest initial'

/-- `TranslatableModelFormMixin.__init__` after the super call: without an
`instance` keyword argument the initial dict is left alone; with one, the
per-language initial values are loaded from its translations. -/
def form_init_initial (s : ParlerSettings) (instOpt : Option TransInstance)
    (initial0 : List (String × String)) : Except PyErr (List (String × String)) :=
  match instOpt with
  | none => .ok initial0
  | some inst => load_initial_metas_loop s inst inst.parlerMetas initial0

/-- The per-language form field names generated for one source field. -/
def field_code_names (s : ParlerSettings) (field : String) : List String :=
  (get_translated_fields_names s field).map (·.2)

/-- All per-language form field names generated for a list of source fields. -/
def all_fields_code_names (s : ParlerSettings) (fields : List String) : List String :=
  match fields with
  | [] => []
  | f :: rest => field_code_names s f ++ all_fields_code_names s rest

/-- Modelled from the spec: the queryset of
`parler.tests.testapp.invalid_models.RegularModelProxy` (not among the
sources), a proxy model whose translation table overlaps the base's. Per the
spec, "overlapping proxy-model translation tables raise a generic runtime
error at query time": materialising an instance hits the overlap, while
`count()` only touches the base table rows. -/
structure ProxyQueryset where
  rows : List Nat
  overlappingTranslations : Bool
deriving DecidableEq

/-- `queryset.count()`: the number of base-table rows. -/
def proxy_queryset_count (qs : ProxyQueryset) : Nat :=
  qs.rows.length

/-- `queryset.all()[i]`: materialising an instance raises `RuntimeError` when
the proxy's translation table overlaps the base's; an index past the end is
an `IndexError`. -/
def proxy_queryset_getitem (qs : ProxyQueryset) (i : Nat) : Except PyErr Nat :=
  if i < qs.rows.length then
    if qs.overlappingTranslations then .error .runtimeError
    else .ok (qs.rows.getD i 0)
  else .error .indexError

/-- An `Article` row as the example views see it: its `published` flag, the
`language_code` values of its joined translation rows, and the keys of its
embedded `translations_data` JSON document. -/
structure Article where
  published : Bool
  translationRows : List String
  translationsData : List String
deriving DecidableEq

/-- `BaseArticleMixin.get_queryset`: `.filter(published=True)`. -/
def base_article_get_queryset (qs : List Article) : List Article :=
  qs.filter (fun a => a.published)

/-- `ArticleListView.get_queryset`: on the `'json'` backend filter with
`translations_data__has=language`, otherwise with
`translations__language_code=language`, on top of the published filter. -/
def article_list_get_queryset (s : ParlerSettings) (language : String)
    (qs : List Article) : List Article :=
  if s.backend = "json" then
    (base_article_get_queryset qs).filter
      (fun a => decide (language ∈ a.translationsData))
  else
    (base_article_get_queryset qs).filter
      (fun a => decide (language ∈ a.translationRows))

/-- C1: the claim says that for every qualifying translatable source field the
metaclass injects one form field per configured language AND replaces that
field's name in `Meta.fields` with the generated names. On a translations
model with two qualifying fields (`tr_title`, `tr_body`, both listed in
`Meta.fields`, editable, not excluded, not in the base fields or attrs) the
code injects all six per-language form fields but loses the first field's
replacement: `_handle_translation_model` captures the local `fields` before
its loop, so the second `_replace_field` call starts from the stale original
list and the final `Meta.fields` still contains `tr_title` and none of its
per-language names. -/
theorem c1_meta_fields_replacement_lost :
    (translatable_model_form_metaclass_new ⟨["nl", "de", "en"], "en", "sql"⟩ []
        (.fieldList ["tr_title", "tr_body"]) [] [] []
        [⟨[⟨"tr_title", true, "Tr title", true⟩, ⟨"tr_body", true, "Tr body", true⟩]⟩]
        [] (some (.fieldList ["tr_title", "tr_body"]))).map
      (fun st => (st.newMetaFields,
        (alistLookup st.attrs "tr_title_nl").isSome,
        (alistLookup st.attrs "tr_title_de").isSome,
        (alistLookup st.attrs "tr_title_en").isSome,
        (alistLookup st.attrs "tr_body_nl").isSome)) =
    .ok (some (.fieldList ["tr_title", "tr_body_nl", "tr_body_de", "tr_body_en"]),
      true, true, true, true) := by
  rfl

/-- C8: the claim says a `TranslatedField` placeholder declared in the class
dict is replaced by building the form field with the placeholder's kwargs.
The code instead crashes: `translated_fields` is the list of placeholder
names, and `translated_fields[f_name].kwargs` indexes that list with a
string, raising `TypeError` as soon as a placeholder names a translated
field. -/
theorem c8_placeholder_raises_type_error :
    translatable_model_form_metaclass_new ⟨["nl", "en"], "en", "sql"⟩ []
        (.fieldList ["tr_title"]) [] [] []
        [⟨[⟨"tr_title", true, "Tr title", true⟩]⟩]
        [("tr_title", .translatedFieldPlaceholder [("max_length", "50")])]
        (some (.fieldList ["tr_title"])) = .error .typeError := by
  rfl

/-- C2: in an inheritance chain the derived model's registry is the base's
chain extended with its own levels, so its root is the base's root and
`root_translations_name` is the translations name of the first (top-most)
level. -/
theorem c2_inherited_registry_root (base own : List ParlerMeta) (m : ParlerMeta)
    (h : parler_meta_root base = some m) :
    parler_meta_root (inherit_parler_meta base own) = parler_meta_root base ∧
    parler_meta_root_translations_name (inherit_parler_meta base own) =
      some m.translations_name := by
  cases base with
  | nil => simp [parler_meta_root] at h
  | cons b rest =>
    have hb : b = m := by simpa [parler_meta_root] using h
    subst hb
    exact ⟨rfl, rfl⟩

/-- C2 witness: the `Level1`/`Level2` chain of the model-construction test. -/
theorem c2_inherited_registry_root_witness :
    parler_meta_root (inherit_parler_meta
        [⟨"l1_translations", "Level1Translation", ["l1_title"]⟩]
        [⟨"l2_translations", "Level2Translation", ["l2_title"]⟩]) =
      parler_meta_root [⟨"l1_translations", "Level1Translation", ["l1_title"]⟩] ∧
    parler_meta_root_translations_name (inherit_parler_meta
        [⟨"l1_translations", "Level1Translation", ["l1_title"]⟩]
        [⟨"l2_translations", "Level2Translation", ["l2_title"]⟩]) =
      some "l1_translations" :=
  c2_inherited_registry_root _ _ ⟨"l1_translations", "Level1Translation", ["l1_title"]⟩ rfl

/-- C3: a proxy model declaring its own translations stacks one entry on the
base's single-entry registry: length 2, the base's entry at index 0, the
proxy's at index 1, and the same root as the base. -/
theorem c3_proxy_registry_stacking (baseReg : List ParlerMeta) (m p : ParlerMeta)
    (h : baseReg = [m]) :
    (inherit_parler_meta baseReg [p]).length = 2 ∧
    (inherit_parler_meta baseReg [p])[0]? = some m ∧
    (inherit_parler_meta baseReg [p])[1]? = some p ∧
    parler_meta_root (inherit_parler_meta baseReg [p]) = parler_meta_root baseReg := by
  subst h
  exact ⟨rfl, rfl, rfl, rfl⟩

/-- C3 witness: the `ProxyBase`/`ProxyModel` registries of the
model-construction test. -/
theorem c3_proxy_registry_stacking_witness :
    (inherit_parler_meta [⟨"base_translations", "ProxyBaseTranslation", ["base_title"]⟩]
        [⟨"proxy_translations", "ProxyModelTranslation", ["proxy_title"]⟩]).length = 2 ∧
    (inherit_parler_meta [⟨"base_translations", "ProxyBaseTranslation", ["base_title"]⟩]
        [⟨"proxy_translations", "ProxyModelTranslation", ["proxy_title"]⟩])[0]? =
      some ⟨"base_translations", "ProxyBaseTranslation", ["base_title"]⟩ ∧
    (inherit_parler_meta [⟨"base_translations", "ProxyBaseTranslation", ["base_title"]⟩]
        [⟨"proxy_translations", "ProxyModelTranslation", ["proxy_title"]⟩])[1]? =
      some ⟨"proxy_translations", "ProxyModelTranslation", ["proxy_title"]⟩ ∧
    parler_meta_root (inherit_parler_meta
        [⟨"base_translations", "ProxyBaseTranslation", ["base_title"]⟩]
        [⟨"proxy_translations", "ProxyModelTranslation", ["proxy_title"]⟩]) =
      parler_meta_root [⟨"base_translations", "ProxyBaseTranslation", ["base_title"]⟩] :=
  c3_proxy_registry_stacking _ _ _ rfl

/-- C6: on a proxy model whose translation table overlaps the base's,
materialising any stored row raises `RuntimeError`, while `count()` still
succeeds and reports the number of existing rows. -/
theorem c6_overlapping_proxy_runtime_error (qs : ProxyQueryset) (i : Nat)
    (hov : qs.overlappingTranslations = true) (hi : i < qs.rows.length) :
    proxy_queryset_getitem qs i = .error .runtimeError ∧
    proxy_queryset_count qs = qs.rows.length := by
  refine ⟨?_, rfl⟩
  unfold proxy_queryset_getitem
  rw [if_pos hi, if_pos hov]

/-- C6 witness: the test's single `RegularModel` row with id 98. -/
theorem c6_overlapping_proxy_runtime_error_witness :
    proxy_queryset_getitem ⟨[98], true⟩ 0 = .error .runtimeError ∧
    proxy_queryset_count ⟨[98], true⟩ = [98].length :=
  c6_overlapping_proxy_runtime_error ⟨[98], true⟩ 0 rfl (by decide)

/-- C7: the article list queryset contains exactly the published articles with
a translation in the active language, the membership test depending on the
backend: the JSON document keys under `'json'`, the joined translation rows
otherwise. -/
theorem c7_article_list_queryset (s : ParlerSettings) (language : String)
    (qs : List Article) (a : Article) :
    a ∈ article_list_get_queryset s language qs ↔
      a ∈ qs ∧ a.published = true ∧
        language ∈ (if s.backend = "json" then a.translationsData
          else a.translationRows) := by
  by_cases hb : s.backend = "json" <;>
    · simp [article_list_get_queryset, base_article_get_queryset, hb,
        List.mem_filter, and_assoc]
      exact fun _ => and_comm

/-- C10: whatever `save_translated_fields` wrote, it leaves the instance's
current language equal to the active thread language `get_language()`. -/
theorem c10_save_restores_active_language (s : ParlerSettings)
    (cleanedData : List (String × String)) (activeLang : String)
    (inst inst' : TransInstance)
    (h : save_translated_fields s cleanedData activeLang inst = .ok inst') :
    inst'.currentLanguage = activeLang := by
  unfold save_translated_fields at h
  cases hl : save_languages_loop s cleanedData (get_available_language_codes s) inst with
  | error e => rw [hl] at h; cases h
  | ok i => rw [hl] at h; cases h; rfl

/-- C10 witness: a two-language save ends on the active language `"en"`. -/
theorem c10_save_restores_active_language_witness :
    ((save_translated_fields ⟨["nl", "en"], "en", "sql"⟩ [("tr_title_nl", "Hoi")] "en"
        ⟨"en", [⟨"translations", "SimpleTranslation", ["tr_title"]⟩], [], []⟩).toOption.getD
      ⟨"", [], [], []⟩).currentLanguage = "en" :=
  c10_save_restores_active_language ⟨["nl", "en"], "en", "sql"⟩
    [("tr_title_nl", "Hoi")] "en"
    ⟨"en", [⟨"translations", "SimpleTranslation", ["tr_title"]⟩], [], []⟩
    ((save_translated_fields ⟨["nl", "en"], "en", "sql"⟩ [("tr_title_nl", "Hoi")] "en"
        ⟨"en", [⟨"translations", "SimpleTranslation", ["tr_title"]⟩], [], []⟩).toOption.getD
      ⟨"", [], [], []⟩)
    (by rfl)

theorem inject_language_fields_frame (tm : TranslationsModel) (f : String)
    (cb : Bool) (kw : List (String × String)) (dl : String) (k : String) :
    ∀ (pairs : List (String × String)) (attrs attrs' : List (String × FormAttr)),
      inject_language_fields tm f cb kw dl pairs attrs = .ok attrs' →
      k ∉ pairs.map (·.2) →
      alistLookup attrs' k = alistLookup attrs k := by
  intro pairs
  induction pairs with
  | nil =>
    intro attrs attrs' hres _
    simp only [inject_language_fields] at hres
    cases hres
    rfl
  | cons p rest ih =>
    intro attrs attrs' hres hk
    obtain ⟨code, tName⟩ := p
    simp only [List.map_cons] at hk
    simp only [inject_language_fields] at hres
    cases hmk : mk_language_formfield tm f cb kw dl code with
    | none => rw [hmk] at hres; cases hres
    | some ff =>
      rw [hmk] at hres
      have hk1 : k ≠ tName := fun h => hk (List.mem_cons.mpr (Or.inl h))
      have hk2 : k ∉ rest.map (·.2) := fun h => hk (List.mem_cons_of_mem _ h)
      exact (ih _ attrs' hres hk2).trans (alistLookup_insert_ne _ _ _ _ hk1)

theorem inject_language_fields_lookup (tm : TranslationsModel) (f : String)
    (cb : Bool) (kw : List (String × String)) (dl : String) (mf : ModelField)
    (hmf : model_get_field tm f = some mf) :
    ∀ (codes : List String) (code : String) (attrs attrs' : List (String × FormAttr)),
      (codes.map (fun c => f ++ "_" ++ c)).Nodup →
      code ∈ codes →
      inject_language_fields tm f cb kw dl
        (codes.map (fun c => (c, f ++ "_" ++ c))) attrs = .ok attrs' →
      alistLookup attrs' (f ++ "_" ++ code) = some (.formFieldAttr
        { sourceField := f
          required := decide (code = dl)
          label := mf.label ++ " (" ++ code ++ ")"
          languageCode := some code
          kwargs := kw
          usedCallback := cb }) := by
  intro codes
  induction codes with
  | nil => intro code attrs attrs' _ hc; cases hc
  | cons c rest ih =>
    intro code attrs attrs' hnd hc hres
    have hmk : mk_language_formfield tm f cb kw dl c = some
        { sourceField := f
          required := decide (c = dl)
          label := mf.label ++ " (" ++ c ++ ")"
          languageCode := some c
          kwargs := kw
          usedCallback := cb } := by
      simp [mk_language_formfield, get_model_form_field, hmf]
    simp only [List.map_cons, inject_language_fields] at hres
    rw [hmk] at hres
    simp only [List.map_cons, List.nodup_cons] at hnd
    obtain ⟨hnotin, hndrest⟩ := hnd
    rcases List.mem_cons.mp hc with h1 | h2
    · subst h1
      rw [inject_language_fields_frame tm f cb kw dl (f ++ "_" ++ code) _ _ attrs'
          hres (by simpa using hnotin)]
      exact alistLookup_insert_self _ _ _
    · exact ih code _ attrs' hndrest h2 hres

/-- C9: every per-language form field generated for a qualifying translated
source field is required exactly when its language is the default language,
its label is the base field's label with `' ({code})'` appended, and its
`language_code` attribute is the language's code. -/
theorem c9_language_field_properties (s : ParlerSettings) (tm : TranslationsModel)
    (f : String) (cb : Bool) (kw : List (String × String)) (code : String)
    (mf : ModelField) (attrs attrs' : List (String × FormAttr))
    (hmf : model_get_field tm f = some mf)
    (hnd : ((get_available_language_codes s).map (fun c => f ++ "_" ++ c)).Nodup)
    (hc : code ∈ get_available_language_codes s)
    (hres : inject_language_fields tm f cb kw (get_default_language s)
      (get_translated_fields_names s f) attrs = .ok attrs') :
    ∃ ff : FormField,
      alistLookup attrs' (f ++ "_" ++ code) = some (.formFieldAttr ff) ∧
      (ff.required = true ↔ code = get_default_language s) ∧
      ff.label = mf.label ++ " (" ++ code ++ ")" ∧
      ff.languageCode = some code := by
  refine ⟨_, inject_language_fields_lookup tm f cb kw (get_default_language s) mf hmf
    (get_available_language_codes s) code attrs attrs' hnd hc hres, ?_, rfl, rfl⟩
  exact decide_eq_true_iff

/-- C9 witness: for languages `nl`/`en` with default `en`, the generated
`tr_title_en` field is required, labelled `'Tr title (en)'` and tagged with
language code `en`. -/
theorem c9_language_field_properties_witness :
    ∃ ff : FormField,
      alistLookup ((inject_language_fields ⟨[⟨"tr_title", true, "Tr title", true⟩]⟩
          "tr_title" false [] (get_default_language ⟨["nl", "en"], "en", "sql"⟩)
          (get_translated_fields_names ⟨["nl", "en"], "en", "sql"⟩ "tr_title")
          []).toOption.getD [])
        ("tr_title" ++ "_" ++ "en") = some (.formFieldAttr ff) ∧
      (ff.required = true ↔ "en" = get_default_language ⟨["nl", "en"], "en", "sql"⟩) ∧
      ff.label = "Tr title" ++ " (" ++ "en" ++ ")" ∧
      ff.languageCode = some "en" :=
  c9_language_field_properties ⟨["nl", "en"], "en", "sql"⟩
    ⟨[⟨"tr_title", true, "Tr title", true⟩]⟩ "tr_title" false [] "en"
    ⟨"tr_title", true, "Tr title", true⟩ []
    ((inject_language_fields ⟨[⟨"tr_title", true, "Tr title", true⟩]⟩
        "tr_title" false [] (get_default_language ⟨["nl", "en"], "en", "sql"⟩)
        (get_translated_fields_names ⟨["nl", "en"], "en", "sql"⟩ "tr_title")
        []).toOption.getD [])
    rfl (by decide) (by decide) (by rfl)

theorem save_fields_for_code_meta (s : ParlerSettings)
    (cd : List (String × String)) (code : String) :
    ∀ (fields : List String) (inst inst' : TransInstance),
      save_fields_for_code s cd code fields inst = .ok inst' →
      inst'.currentLanguage = inst.currentLanguage ∧
      inst'.parlerMetas = inst.parlerMetas := by
  intro fields
  induction fields with
  | nil =>
    intro inst inst' h
    simp only [save_fields_for_code] at h
    cases h
    exact ⟨rfl, rfl⟩
  | cons f rest ih =>
    intro inst inst' h
    simp only [save_fields_for_code] at h
    cases hpd : pyDictLookup (get_translated_fields_names s f) code with
    | none => simp only [hpd] at h; cases h
    | some cf =>
      simp only [hpd] at h
      cases hcd : alistLookup cd cf with
      | none =>
        simp only [hcd] at h
        exact ih inst inst' h
      | some v =>
        simp only [hcd] at h
        exact ih (set_translated_attr inst f v) inst' h

theorem save_fields_for_code_frame (s : ParlerSettings)
    (cd : List (String × String)) (code : String) :
    ∀ (fields : List String) (inst inst' : TransInstance) (l g : String),
      save_fields_for_code s cd code fields inst = .ok inst' →
      (l ≠ inst.currentLanguage ∨ g ∉ fields) →
      alistLookup inst'.values (l, g) = alistLookup inst.values (l, g) := by
  intro fields
  induction fields with
  | nil =>
    intro inst inst' l g h _
    simp only [save_fields_for_code] at h
    cases h
    rfl
  | cons f rest ih =>
    intro inst inst' l g h hcond
    simp only [save_fields_for_code] at h
    cases hpd : pyDictLookup (get_translated_fields_names s f) code with
    | none => simp only [hpd] at h; cases h
    | some cf =>
      simp only [hpd] at h
      cases hcd : alistLookup cd cf with
      | none =>
        simp only [hcd] at h
        apply ih inst inst' l g h
        rcases hcond with h1 | h2
        · exact Or.inl h1
        · exact Or.inr (fun hm => h2 (List.mem_cons_of_mem _ hm))
      | some v =>
        simp only [hcd] at h
        have hkey : (l, g) ≠ (inst.currentLanguage, f) := by
          rcases hcond with h1 | h2
          · exact fun he => h1 (congrArg Prod.fst he)
          · exact fun he =>
              h2 (List.mem_cons.mpr (Or.inl (congrArg Prod.snd he)))
        have hrec := ih (set_translated_attr inst f v) inst' l g h ?_
        · rw [hrec]
          exact alistLookup_insert_ne _ _ _ _ hkey
        · rcases hcond with h1 | h2
          · exact Or.inl h1
          · exact Or.inr (fun hm => h2 (List.mem_cons_of_mem _ hm))

theorem save_fields_for_code_target (s : ParlerSettings)
    (cd : List (String × String)) (code : String)
    (hmem : code ∈ get_available_language_codes s) :
    ∀ (fields : List String) (inst inst' : TransInstance) (field : String),
      fields.Nodup →
      field ∈ fields →
      inst.currentLanguage = code →
      save_fields_for_code s cd code fields inst = .ok inst' →
      alistLookup inst'.values (code, field) =
        match alistLookup cd (field ++ "_" ++ code) with
        | some v => some v
        | none => alistLookup inst.values (code, field) := by
  intro fields
  induction fields with
  | nil => intro inst inst' field _ hf; cases hf
  | cons f rest ih =>
    intro inst inst' field hnd hf hcl h
    simp only [save_fields_for_code] at h
    have hpd : pyDictLookup (get_translated_fields_names s f) code =
        some (f ++ "_" ++ code) := by
      rw [get_translated_fields_names_eq]
      exact pyDictLookup_pairs_of_mem _ _ _ hmem
    simp only [hpd] at h
    obtain ⟨hfnotin, hndrest⟩ := List.nodup_cons.mp hnd
    rcases List.mem_cons.mp hf with h1 | h2
    · subst h1
      cases hcd : alistLookup cd (field ++ "_" ++ code) with
      | none =>
        simp only [hcd] at h ⊢
        exact save_fields_for_code_frame s cd code rest inst inst' code field h
          (Or.inr hfnotin)
      | some v =>
        simp only [hcd] at h ⊢
        rw [save_fields_for_code_frame s cd code rest
          (set_translated_attr inst field v) inst' code field h (Or.inr hfnotin)]
        show alistLookup (alistInsert inst.values (inst.currentLanguage, field) v)
          (code, field) = some v
        rw [hcl]
        exact alistLookup_insert_self _ _ _
    · have hne : field ≠ f := fun he => hfnotin (he ▸ h2)
      cases hcd : alistLookup cd (f ++ "_" ++ code) with
      | none =>
        simp only [hcd] at h
        exact ih inst inst' field hndrest h2 hcl h
      | some v =>
        simp only [hcd] at h
        have hrec := ih (set_translated_attr inst f v) inst' field hndrest h2 hcl h
        rw [hrec]
        cases hcd2 : alistLookup cd (field ++ "_" ++ code) with
        | some w => exact rfl
        | none =>
          show alistLookup (alistInsert inst.values (inst.currentLanguage, f) v)
            (code, field) = alistLookup inst.values (code, field)
          exact alistLookup_insert_ne _ _ _ _
            (fun he => hne (congrArg Prod.snd he))

theorem save_languages_loop_frame (s : ParlerSettings)
    (cd : List (String × String)) :
    ∀ (codes : List String) (inst inst' : TransInstance) (l g : String),
      save_languages_loop s cd codes inst = .ok inst' →
      l ∉ codes →
      alistLookup inst'.values (l, g) = alistLookup inst.values (l, g) := by
  intro codes
  induction codes with
  | nil =>
    intro inst inst' l g h _
    simp only [save_languages_loop] at h
    cases h
    rfl
  | cons c rest ih =>
    intro inst inst' l g h hl
    simp only [save_languages_loop] at h
    cases hsf : save_fields_for_code s cd c
        (all_translated_fields_names (set_current_language inst c))
        (set_current_language inst c) with
    | error e => simp only [hsf] at h; cases h
    | ok inst2 =>
      simp only [hsf] at h
      have h1 : l ≠ c := fun he => hl (List.mem_cons.mpr (Or.inl he))
      have h2 : l ∉ rest := fun hm => hl (List.mem_cons_of_mem _ hm)
      rw [ih inst2 inst' l g h h2]
      exact save_fields_for_code_frame s cd c _ (set_current_language inst c)
        inst2 l g hsf (Or.inl h1)

theorem save_languages_loop_values (s : ParlerSettings)
    (cd : List (String × String)) (code field : String)
    (hmem : code ∈ get_available_language_codes s) :
    ∀ (codes : List String) (inst inst' : TransInstance),
      codes.Nodup →
      code ∈ codes →
      (all_translated_fields_names inst).Nodup →
      field ∈ all_translated_fields_names inst →
      save_languages_loop s cd codes inst = .ok inst' →
      alistLookup inst'.values (code, field) =
        match alistLookup cd (field ++ "_" ++ code) with
        | some v => some v
        | none => alistLookup inst.values (code, field) := by
  intro codes
  induction codes with
  | nil => intro inst inst' _ hc; cases hc
  | cons c rest ih =>
    intro inst inst' hnd hc hfnd hf h
    simp only [save_languages_loop] at h
    cases hsf : save_fields_for_code s cd c
        (all_translated_fields_names (set_current_language inst c))
        (set_current_language inst c) with
    | error e => simp only [hsf] at h; cases h
    | ok inst2 =>
      simp only [hsf] at h
      obtain ⟨hcnotin, hndrest⟩ := List.nodup_cons.mp hnd
      rcases List.mem_cons.mp hc with h1 | h2
      · subst h1
        rw [save_languages_loop_frame s cd rest inst2 inst' code field h hcnotin]
        exact save_fields_for_code_target s cd code hmem
          (all_translated_fields_names (set_current_language inst code))
          (set_current_language inst code) inst2 field hfnd hf rfl hsf
      · have hcne : code ≠ c := fun he => hcnotin (he ▸ h2)
        have hmeta := save_fields_for_code_meta s cd c _ _ inst2 hsf
        have hfnd2 : (all_translated_fields_names inst2).Nodup := by
          unfold all_translated_fields_names
          rw [hmeta.2]
          exact hfnd
        have hf2 : field ∈ all_translated_fields_names inst2 := by
          unfold all_translated_fields_names
          rw [hmeta.2]
          exact hf
        have hrec := ih inst2 inst' hndrest h2 hfnd2 hf2 h
        rw [hrec]
        have hfr := save_fields_for_code_frame s cd c
          (all_translated_fields_names (set_current_language inst c))
          (set_current_language inst c) inst2 code field hsf (Or.inl hcne)
        cases hcd : alistLookup cd (field ++ "_" ++ code) with
        | some w => exact rfl
        | none => exact hfr

/-- C4: after `save_translated_fields`, for every configured language and
every translated field of the instance, a per-language key present in
`cleaned_data` has been written to the instance's value for that language,
and an absent key leaves that language's value unchanged. -/
theorem c4_save_restores_per_language_values (s : ParlerSettings)
    (cd : List (String × String)) (activeLang code field : String)
    (inst inst' : TransInstance)
    (hndc : (get_available_language_codes s).Nodup)
    (hndf : (all_translated_fields_names inst).Nodup)
    (hc : code ∈ get_available_language_codes s)
    (hf : field ∈ all_translated_fields_names inst)
    (h : save_translated_fields s cd activeLang inst = .ok inst') :
    alistLookup inst'.values (code, field) =
      match alistLookup cd (field ++ "_" ++ code) with
      | some v => some v
      | none => alistLookup inst.values (code, field) := by
  unfold save_translated_fields at h
  cases hl : save_languages_loop s cd (get_available_language_codes s) inst with
  | error e => rw [hl] at h; cases h
  | ok i =>
    rw [hl] at h
    cases h
    exact save_languages_loop_values s cd code field hc
      (get_available_language_codes s) inst i hndc hc hndf hf hl

/-- C4 witness: with languages `nl`/`en`, `tr_title_nl` present in
`cleaned_data` is written to the `nl` value of `tr_title`, shown on a
concrete instance. -/
theorem c4_save_restores_per_language_values_witness :
    alistLookup ((save_translated_fields ⟨["nl", "en"], "en", "sql"⟩
        [("tr_title_nl", "Hoi")] "en"
        ⟨"en", [⟨"translations", "SimpleTranslation", ["tr_title"]⟩],
          [(("en", "tr_title"), "Hello")], []⟩).toOption.getD
      ⟨"", [], [], []⟩).values ("nl", "tr_title") =
      match alistLookup [("tr_title_nl", "Hoi")] ("tr_title" ++ "_" ++ "nl") with
      | some v => some v
      | none =>
        alistLookup [(("en", "tr_title"), "Hello")] ("nl", "tr_title") :=
  c4_save_restores_per_language_values ⟨["nl", "en"], "en", "sql"⟩
    [("tr_title_nl", "Hoi")] "en" "nl" "tr_title"
    ⟨"en", [⟨"translations", "SimpleTranslation", ["tr_title"]⟩],
      [(("en", "tr_title"), "Hello")], []⟩
    ((save_translated_fields ⟨["nl", "en"], "en", "sql"⟩
        [("tr_title_nl", "Hoi")] "en"
        ⟨"en", [⟨"translations", "SimpleTranslation", ["tr_title"]⟩],
          [(("en", "tr_title"), "Hello")], []⟩).toOption.getD
      ⟨"", [], [], []⟩)
    (by decide) (by decide) (by decide) (by decide) (by rfl)

theorem load_initial_for_field_codes_frame (inst : TransInstance)
    (meta : ParlerMeta) (field : String) (k : String) :
    ∀ (pairs : List (String × String)) (initial initial' : List (String × String)),
      load_initial_for_field_codes inst meta field pairs initial = .ok initial' →
      k ∉ pairs.map (·.2) →
      alistLookup initial' k = alistLookup initial k := by
  intro pairs
  induction pairs with
  | nil =>
    intro initial initial' h _
    simp only [load_initial_for_field_codes] at h
    cases h
    rfl
  | cons p rest ih =>
    intro initial initial' h hk
    obtain ⟨code, cf⟩ := p
    simp only [List.map_cons] at hk
    have hk1 : k ≠ cf := fun he => hk (List.mem_cons.mpr (Or.inl he))
    have hk2 : k ∉ rest.map (·.2) := fun hm => hk (List.mem_cons_of_mem _ hm)
    simp only [load_initial_for_field_codes] at h
    cases htr : alistLookup inst.translations (meta.translations_name, code) with
    | none =>
      have hgt : get_translated_model inst meta code =
          .error .translationDoesNotExist := by
        simp [get_translated_model, htr]
      simp only [hgt] at h
      exact ih initial initial' h hk2
    | some t =>
      have hgt : get_translated_model inst meta code = .ok t := by
        simp [get_translated_model, htr]
      simp only [hgt] at h
      cases hga : alistLookup t field with
      | none =>
        have hpg : py_getattr t field = .error .attributeError := by
          simp [py_getattr, hga]
        simp only [hpg] at h
        cases h
      | some v =>
        have hpg : py_getattr t field = .ok v := by
          simp [py_getattr, hga]
        simp only [hpg] at h
        exact (ih _ initial' h hk2).trans (alistLookup_setdefault_ne _ _ _ _ hk1)

theorem load_initial_for_field_codes_target (inst : TransInstance)
    (meta : ParlerMeta) (field code cf : String) :
    ∀ (pairs : List (String × String)) (initial initial' : List (String × String)),
      (pairs.map (·.2)).Nodup →
      (code, cf) ∈ pairs →
      alistLookup initial cf = none →
      load_initial_for_field_codes inst meta field pairs initial = .ok initial' →
      alistLookup initial' cf =
        match get_translated_model inst meta code with
        | .error _ => none
        | .ok t => alistLookup t field := by
  intro pairs
  induction pairs with
  | nil => intro initial initial' _ hm; cases hm
  | cons p rest ih =>
    intro initial initial' hnd hm hinit h
    obtain ⟨c1, n1⟩ := p
    simp only [List.map_cons, List.nodup_cons] at hnd
    obtain ⟨hn1notin, hndrest⟩ := hnd
    simp only [load_initial_for_field_codes] at h
    rcases List.mem_cons.mp hm with h1 | h2
    · cases h1
      cases htr : alistLookup inst.translations (meta.translations_name, code) with
      | none =>
        have hgt : get_translated_model inst meta code =
            .error .translationDoesNotExist := by
          simp [get_translated_model, htr]
        simp only [hgt] at h ⊢
        rw [load_initial_for_field_codes_frame inst meta field cf rest initial
          initial' h hn1notin]
        exact hinit
      | some t =>
        have hgt : get_translated_model inst meta code = .ok t := by
          simp [get_translated_model, htr]
        simp only [hgt] at h ⊢
        cases hga : alistLookup t field with
        | none =>
          have hpg : py_getattr t field = .error .attributeError := by
            simp [py_getattr, hga]
          simp only [hpg] at h
          cases h
        | some v =>
          have hpg : py_getattr t field = .ok v := by
            simp [py_getattr, hga]
          simp only [hpg] at h
          rw [load_initial_for_field_codes_frame inst meta field cf rest _
            initial' h hn1notin]
          rw [alistLookup_setdefault_self, hinit]
          rfl
    · have hcf_in_rest : cf ∈ rest.map (·.2) :=
        List.mem_map.mpr ⟨(code, cf), h2, rfl⟩
      have hne : cf ≠ n1 := fun he => hn1notin (he ▸ hcf_in_rest)
      cases htr1 : alistLookup inst.translations (meta.translations_name, c1) with
      | none =>
        have hgt : get_translated_model inst meta c1 =
            .error .translationDoesNotExist := by
          simp [get_translated_model, htr1]
        simp only [hgt] at h
        exact ih initial initial' hndrest h2 hinit h
      | some t =>
        have hgt : get_translated_model inst meta c1 = .ok t := by
          simp [get_translated_model, htr1]
        simp only [hgt] at h
        cases hga : alistLookup t field with
        | none =>
          have hpg : py_getattr t field = .error .attributeError := by
            simp [py_getattr, hga]
          simp only [hpg] at h
          cases h
        | some v =>
          have hpg : py_getattr t field = .ok v := by
            simp [py_getattr, hga]
          simp only [hpg] at h
          apply ih _ initial' hndrest h2 ?_ h
          rw [alistLookup_setdefault_ne _ _ _ _ hne]
          exact hinit

theorem mem_all_fields_code_names (s : ParlerSettings) (field code : String)
    (hcode : code ∈ get_available_language_codes s) :
    ∀ fields : List String, field ∈ fields →
      (field ++ "_" ++ code) ∈ all_fields_code_names s fields := by
  intro fields
  induction fields with
  | nil => intro h; cases h
  | cons g rest ih =>
    intro h
    show (field ++ "_" ++ code) ∈ field_code_names s g ++ all_fields_code_names s rest
    rcases List.mem_cons.mp h with h1 | h2
    · subst h1
      refine List.mem_append.mpr (Or.inl ?_)
      show (field ++ "_" ++ code) ∈ (get_translated_fields_names s field).map (·.2)
      exact List.mem_map.mpr ⟨(code, field ++ "_" ++ code),
        List.mem_map.mpr ⟨code, hcode, rfl⟩, rfl⟩
    · exact List.mem_append.mpr (Or.inr (ih h2))

theorem load_initial_fields_loop_frame (s : ParlerSettings) (inst : TransInstance)
    (meta : ParlerMeta) (k : String) :
    ∀ (fields : List String) (initial initial' : List (String × String)),
      load_initial_fields_loop s inst meta fields initial = .ok initial' →
      k ∉ all_fields_code_names s fields →
      alistLookup initial' k = alistLookup initial k := by
  intro fields
  induction fields with
  | nil =>
    intro initial initial' h _
    simp only [load_initial_fields_loop] at h
    cases h
    rfl
  | cons f rest ih =>
    intro initial initial' h hk
    have hk' : k ∉ field_code_names s f ++ all_fields_code_names s rest := hk
    have hk1 : k ∉ (get_translated_fields_names s f).map (·.2) :=
      fun hm => hk' (List.mem_append.mpr (Or.inl hm))
    have hk2 : k ∉ all_fields_code_names s rest :=
      fun hm => hk' (List.mem_append.mpr (Or.inr hm))
    simp only [load_initial_fields_loop] at h
    cases hb : load_initial_for_field_codes inst meta f
        (get_translated_fields_names s f) initial with
    | error e => simp only [hb] at h; cases h
    | ok initial1 =>
      simp only [hb] at h
      rw [ih initial1 initial' h hk2]
      exact load_initial_for_field_codes_frame inst meta f k _ initial initial1 hb hk1

theorem load_initial_fields_loop_target (s : ParlerSettings) (inst : TransInstance)
    (meta : ParlerMeta) (field code : String)
    (hcode : code ∈ get_available_language_codes s) :
    ∀ (fields : List String) (initial initial' : List (String × String)),
      (all_fields_code_names s fields).Nodup →
      field ∈ fields →
      alistLookup initial (field ++ "_" ++ code) = none →
      load_initial_fields_loop s inst meta fields initial = .ok initial' →
      alistLookup initial' (field ++ "_" ++ code) =
        match get_translated_model inst meta code with
        | .error _ => none
        | .ok t => alistLookup t field := by
  intro fields
  induction fields with
  | nil => intro initial initial' _ hf; cases hf
  | cons g rest ih =>
    intro initial initial' hnd hf hinit h
    have hnd' : (field_code_names s g ++ all_fields_code_names s rest).Nodup := hnd
    rw [List.nodup_append] at hnd'
    obtain ⟨hnd1, hnd2, hdisj⟩ := hnd'
    simp only [load_initial_fields_loop] at h
    cases hb : load_initial_for_field_codes inst meta g
        (get_translated_fields_names s g) initial with
    | error e => simp only [hb] at h; cases h
    | ok initial1 =>
      simp only [hb] at h
      rcases List.mem_cons.mp hf with h1 | h2
      · subst h1
        have hmemfc : (field ++ "_" ++ code) ∈ field_code_names s field :=
          List.mem_map.mpr ⟨(code, field ++ "_" ++ code),
            List.mem_map.mpr ⟨code, hcode, rfl⟩, rfl⟩
        have hnotin_rest : (field ++ "_" ++ code) ∉ all_fields_code_names s rest :=
          fun hm => hdisj hmemfc hm
        rw [load_initial_fields_loop_frame s inst meta (field ++ "_" ++ code) rest
          initial1 initial' h hnotin_rest]
        have hpair : (code, field ++ "_" ++ code) ∈
            get_translated_fields_names s field :=
          List.mem_map.mpr ⟨code, hcode, rfl⟩
        exact load_initial_for_field_codes_target inst meta field code
          (field ++ "_" ++ code) (get_translated_fields_names s field) initial
          initial1 hnd1 hpair hinit hb
      · have hmem_rest : (field ++ "_" ++ code) ∈ all_fields_code_names s rest :=
          mem_all_fields_code_names s field code hcode rest h2
        have hnotin_g : (field ++ "_" ++ code) ∉ field_code_names s g :=
          fun hm => hdisj hm hmem_rest
        have hinit1 : alistLookup initial1 (field ++ "_" ++ code) = none := by
          rw [load_initial_for_field_codes_frame inst meta g (field ++ "_" ++ code)
            (get_translated_fields_names s g) initial initial1 hb hnotin_g]
          exact hinit
        exact ih initial1 initial' hnd2 h2 hinit1 h

/-- C5: when a form is built for an instance, a language with no stored
translation raises the does-not-exist condition which is caught and skipped —
no initial value appears for that per-language field — while a language with
a translation gets its stored field value loaded as the initial value. -/
theorem c5_missing_translation_skipped (s : ParlerSettings) (inst : TransInstance)
    (meta : ParlerMeta) (field code : String)
    (initial0 res : List (String × String))
    (hmetas : inst.parlerMetas = [meta])
    (hf : field ∈ meta.fields)
    (hcode : code ∈ get_available_language_codes s)
    (hnd : (all_fields_code_names s meta.fields).Nodup)
    (hinit : alistLookup initial0 (field ++ "_" ++ code) = none)
    (hres : form_init_initial s (some inst) initial0 = .ok res) :
    alistLookup res (field ++ "_" ++ code) =
      match get_translated_model inst meta code with
      | .error _ => none
      | .ok t => alistLookup t field := by
  simp only [form_init_initial] at hres
  rw [hmetas] at hres
  simp only [load_initial_metas_loop] at hres
  cases hb : load_initial_fields_loop s inst meta meta.fields initial0 with
  | error e => simp only [hb] at hres; cases hres
  | ok i1 =>
    simp only [hb] at hres
    cases hres
    exact load_initial_fields_loop_target s inst meta field code hcode meta.fields
      initial0 _ hnd hf hinit hb

/-- C5 witness: with a stored `en` translation only, the `nl` initial for
`tr_title` stays unset while the conclusion's match captures the loaded case
for stored rows. -/
theorem c5_missing_translation_skipped_witness :
    alistLookup ((form_init_initial ⟨["nl", "en"], "en", "sql"⟩
        (some ⟨"en", [⟨"translations", "SimpleTranslation", ["tr_title"]⟩], [],
          [(("translations", "en"), [("tr_title", "Hello")])]⟩)
        []).toOption.getD [])
      ("tr_title" ++ "_" ++ "nl") =
      match get_translated_model
          ⟨"en", [⟨"translations", "SimpleTranslation", ["tr_title"]⟩], [],
            [(("translations", "en"), [("tr_title", "Hello")])]⟩
          ⟨"translations", "SimpleTranslation", ["tr_title"]⟩ "nl" with
      | .error _ => none
      | .ok t => alistLookup t "tr_title" :=
  c5_missing_translation_skipped ⟨["nl", "en"], "en", "sql"⟩
    ⟨"en", [⟨"translations", "SimpleTranslation", ["tr_title"]⟩], [],
      [(("translations", "en"), [("tr_title", "Hello")])]⟩
    ⟨"translations", "SimpleTranslation", ["tr_title"]⟩ "tr_title" "nl"
    []
    ((form_init_initial ⟨["nl", "en"], "en", "sql"⟩
        (some ⟨"en", [⟨"translations", "SimpleTranslation", ["tr_title"]⟩], [],
          [(("translations", "en"), [("tr_title", "Hello")])]⟩)
        []).toOption.getD [])
    rfl (by decide) (by decide) (by decide) rfl (by rfl)
